import Mathlib

/-!
Verification development for the Wenet PiCamera2 wrapper
(`src/tx/WenetPiCamera2.py`).

The Python class drives a still camera: `capture` performs a best-of-N
acquisition round into temporary files, `ssdvify` converts the winner to
SSDV via external tools, `auto_capture` is the orchestration loop
(capture, post-process, encode, wait for the transmit queue to drain,
enqueue, advance the 8-bit image id), and the constructor retries camera
initialisation.  Below, each of these pieces is shallowly embedded:
filesystem state is an association list from file names to byte sizes,
the camera hardware and the external world are oracles (explicit
function parameters), and the loops take explicit fuel.
-/

/-- File names.  The temporary captures are created by the Python code with
the format string "%s_%d.jpg" applied to the temp prefix and the shot index;
`temp p i` denotes exactly that string.  Every other path (such as the
timestamped destination file) is `plain s`. -/
inductive FName where
  | temp (p : String) (i : Nat)
  | plain (s : String)
deriving DecidableEq, Repr

/-- The single-underscore separator string of the temp-file format. -/
def undJpg : String := "_"

/-- The ".jpg" extension string. -/
def jpgExt : String := ".jpg"

/-- The concrete string a file name denotes:
`temp p i` renders exactly like the Python format string
`"%s_%d.jpg" % (prefix, i)`. -/
def FName.render : FName → String
  | .temp p i => p ++ undJpg ++ toString i ++ jpgExt
  | .plain s => s

/-- Glob matching for the pattern `pfx ++ "_*.jpg"` used by
`glob.glob("%s_*.jpg" % self.temp_filename_prefix)` (line 262) and the
`rm %s_*.jpg` cleanup (line 273): a name matches iff its rendered string
starts with `pfx ++ "_"` and ends with ".jpg".  (Since the pattern's fixed
prefix ends in an underscore and its fixed suffix starts with a dot, the
two requirements cannot overlap, so this conjunction is exactly the glob
semantics.) -/
def globMatch (pfx : String) (f : FName) : Bool :=
  List.isPrefixOf (pfx ++ undJpg).data f.render.data &&
    List.isSuffixOf jpgExt.data f.render.data

/-- The filesystem: an association list from file names to byte sizes. -/
abbrev FS : Type := List (FName × Nat)

/-- Writing a file: overwrite the existing entry if the name is present,
otherwise append a fresh entry. -/
def fsWrite : FS → FName → Nat → FS
  | [], name, sz => [(name, sz)]
  | e :: rest, name, sz =>
    if e.1 = name then (name, sz) :: rest else e :: fsWrite rest name sz

/-- Whether a file of the given name exists. -/
def fsHas : FS → FName → Bool
  | [], _ => false
  | e :: rest, name => decide (e.1 = name) || fsHas rest name

/-- Size lookup (`os.path.getsize`). -/
def fsLookup : FS → FName → Option Nat
  | [], _ => none
  | e :: rest, name => if e.1 = name then some e.2 else fsLookup rest name

/-- `glob.glob("%s_*.jpg" % prefix)` over the filesystem: the entries whose
names match the temp glob, in filesystem order. -/
def fsGlobList (pfx : String) (fs : FS) : FS :=
  List.filter (fun e => globMatch pfx e.1) fs

/-- `rm %s_*.jpg`: delete every file whose name matches the temp glob. -/
def fsRemoveGlob (pfx : String) (fs : FS) : FS :=
  List.filter (fun e => !globMatch pfx e.1) fs

/-- The default temporary filename prefix of the Python class. -/
def pfxPicam : String := "picam_temp"

/-- Static configuration of the camera object, as read by `capture`
(`src/tx/WenetPiCamera2.py` lines 201-275):
`num_images`, `image_delay`, `lens_position`, the temp filename prefix,
and whether the hardware advertises the LensPosition control
(`'LensPosition' in self.cam.camera_controls`). -/
structure CamConfig where
  num_images : Nat
  image_delay : Int
  lens_position : Int
  hasLensControl : Bool
  temp_pfx : String

/-- `'LensPosition' not in self.cam.camera_controls or self.lens_position>=0.0`
(lines 230 and 256): true when the sensor stream is started per capture
round and stopped afterwards; false in continuous-autofocus mode, where the
stream was already started at `init_camera` time. -/
def perRoundStart (cfg : CamConfig) : Bool :=
  !cfg.hasLensControl || decide (0 ≤ cfg.lens_position)

/-- Hardware oracle for one capture round: whether `self.cam.start()`
succeeds, and for each shot index `i` either `some sz` (the shot is written
as a temp file of `sz` bytes) or `none` (`self.cam.capture_file` raises). -/
structure CaptureEnv where
  startOk : Bool
  shot : Nat → Option Nat

/-- Observable events of one `capture` call, in program order. -/
inductive CEvent where
  | camStartEv
  | startFailEv
  | settleEv
  | attemptEv (i : Nat)
  | capturedEv (i : Nat)
  | delayEv
  | camStopEv
  | copyEv
  | cleanupEv
deriving DecidableEq, Repr

/-- Result of a `capture` call: `ok` / `failed` are the Python
`return True` / `return False`; `errored` is an uncaught exception escaping
the call (`max(pic_sizes)` on an empty glob list, possible only when
`num_images = 0` and no leftover temp files exist). -/
inductive CapOutcome where
  | ok
  | failed
  | errored
deriving DecidableEq, Repr

/-- The capture loop of `capture` (lines 242-254): `num_images` sequential
shots, writing shot `i` to the temp file `temp pfx i`; an inter-capture
delay follows each shot when `image_delay > 0`; any shot raising aborts the
round immediately with `return False`, leaving the files written so far on
disk. -/
def captureShots (env : CaptureEnv) (cfg : CamConfig) :
    Nat → Nat → FS → List CEvent → Bool × FS × List CEvent
  | 0, _, fs, tr => (true, fs, tr)
  | n + 1, i, fs, tr =>
    match env.shot i with
    | some sz =>
      captureShots env cfg n (i + 1)
        (fsWrite fs (FName.temp cfg.temp_pfx i) sz)
        (tr ++ [CEvent.attemptEv i, CEvent.capturedEv i] ++
          (if 0 < cfg.image_delay then [CEvent.delayEv] else []))
    | none => (false, fs, tr ++ [CEvent.attemptEv i])

/-- `pic_list[pic_sizes.index(max(pic_sizes))]` over a nonempty candidate
list: the first entry whose size equals the maximum. -/
def firstMax (a : FName × Nat) : FS → FName × Nat
  | [] => a
  | e :: rest => if a.2 < e.2 then firstMax e rest else firstMax a rest

/-- Best-image selection (lines 262-267): `none` on an empty glob list
(where the Python `max([])` raises ValueError), otherwise the first
largest entry. -/
def bestPic : FS → Option (FName × Nat)
  | [] => none
  | e :: rest => some (firstMax e rest)

/-- The part of `capture` after the stream-start branch (lines 239-275):
the unconditional 3-second settle delay, the shot loop, the per-round
stream stop, the glob-based best-image selection, the copy of the winner
to `dest` (`cp`, modelled as writing `dest` with the winner's size), and
the `rm`-glob cleanup.  Note the cleanup runs only on this success path. -/
def runCaptureCore (env : CaptureEnv) (cfg : CamConfig) (dest : FName)
    (fs : FS) (tr : List CEvent) : CapOutcome × FS × List CEvent :=
  match captureShots env cfg cfg.num_images 0 fs (tr ++ [CEvent.settleEv]) with
  | (false, fs2, tr2) => (CapOutcome.failed, fs2, tr2)
  | (true, fs2, tr2) =>
    let tr3 := tr2 ++ (if perRoundStart cfg then [CEvent.camStopEv] else [])
    match bestPic (fsGlobList cfg.temp_pfx fs2) with
    | none => (CapOutcome.errored, fs2, tr3)
    | some best =>
      (CapOutcome.ok,
        fsRemoveGlob cfg.temp_pfx (fsWrite fs2 dest best.2),
        tr3 ++ [CEvent.copyEv, CEvent.cleanupEv])

/-- The `capture` method (lines 201-275).  In the per-round-start variant
the stream is started first; a start failure is `sleep(1); return False`
with the filesystem untouched.  In the continuous-autofocus variant the
stream is already running and no start is attempted.  Either way the body
continues with `runCaptureCore`, whose trace begins with the settle delay
`sleep(3)` (line 239) — which the source runs unconditionally, in both
variants. -/
def runCapture (env : CaptureEnv) (cfg : CamConfig) (dest : FName)
    (fs : FS) : CapOutcome × FS × List CEvent :=
  if perRoundStart cfg then
    if env.startOk then
      runCaptureCore env cfg dest fs [CEvent.camStartEv]
    else
      (CapOutcome.failed, fs, [CEvent.camStartEv, CEvent.startFailEv])
  else
    runCaptureCore env cfg dest fs []

/-- The temp files written by `n` successful shots starting at index `i`,
in write order, when shot `j` has size `sz j`. -/
def shotWrites (pfx : String) (sz : Nat → Nat) : Nat → Nat → FS
  | 0, _ => []
  | n + 1, i => (FName.temp pfx i, sz i) :: shotWrites pfx sz n (i + 1)

/-- The trace of `n` successful shots starting at index `i`. -/
def shotsTrace (cfg : CamConfig) : Nat → Nat → List CEvent
  | 0, _ => []
  | n + 1, i =>
    [CEvent.attemptEv i, CEvent.capturedEv i] ++
      (if 0 < cfg.image_delay then [CEvent.delayEv] else []) ++
      shotsTrace cfg n (i + 1)

/-- `image_id = image_id % 256` at the top of `ssdvify` (line 292): the
image id field actually embedded in the SSDV command line. -/
def ssdvUsedId (image_id : Nat) : Nat := image_id % 256

/-- `ssdvify` (lines 277-317) with the two external tool invocations as
oracle booleans: the resize step failing or the ssdv encoder exiting
non-zero both yield FAIL (`none`); on success the (constant) output
filename is returned, tagged here with the embedded image id. -/
def ssdvifyModel (resizeOk encodeOk : Bool) (image_id : Nat) : Option Nat :=
  if resizeOk then
    if encodeOk then some (ssdvUsedId image_id) else none
  else none

/-- Observable events of the `auto_capture` loop, in program order. -/
inductive OEvent where
  | cycleSleep
  | captureCall
  | recSleep
  | camStopAtt
  | camCloseAtt
  | initAtt
  | postProc
  | encodeCall (usedId : Nat)
  | poll (r : Bool)
  | stopObserved
  | enqueue
deriving DecidableEq, Repr

/-- Result of the `capture` call as seen by `auto_capture` (lines 350-354):
`ok` is `return True`; `failedFalse` is `return False`; `raised` is an
exception caught by the `try`, also yielding `capture_successful = False`. -/
inductive CapRes where
  | ok
  | failedFalse
  | raised
deriving DecidableEq, Repr

/-- Per-cycle oracle for the `auto_capture` loop: the running flag at the
top of the cycle, the capture outcome, whether the post-process hook is
installed and whether it raises, the outcomes of the external resize and
ssdv steps, the recovery-step outcomes (`cam.stop`, `cam.close`,
`init_camera` — failures are caught and only logged, so they do not alter
control flow), the queue-empty poll results, and the running flag as read
at each check inside the backpressure wait. -/
structure CycleOracle where
  runningAtTop : Bool
  captureRes : CapRes
  hookPresent : Bool
  hookRaises : Bool
  resizeOk : Bool
  encodeOk : Bool
  recStopOk : Bool
  recCloseOk : Bool
  recInitOk : Bool
  polls : Nat → Bool
  runningInWait : Nat → Bool

/-- Result of the backpressure wait. -/
inductive WaitRes where
  | drained
  | stopped
  | fuelOut
deriving DecidableEq, Repr

/-- The backpressure wait (lines 404-407):
`while tx.image_queue_empty() == False: sleep(0.05); if not running: return`.
Poll `k`; an empty queue (`true`) exits the wait; otherwise the running
flag is checked and, if cleared, the whole loop function returns; otherwise
poll again.  `fuel` bounds the number of re-polls (the Python loop has no
bound and can block forever). -/
def waitDrain (polls running : Nat → Bool) : Nat → Nat → List OEvent × WaitRes
  | 0, k =>
    if polls k then ([OEvent.poll true], WaitRes.drained)
    else if running k then ([OEvent.poll false], WaitRes.fuelOut)
    else ([OEvent.poll false, OEvent.stopObserved], WaitRes.stopped)
  | f + 1, k =>
    if polls k then ([OEvent.poll true], WaitRes.drained)
    else if running k then
      let r := waitDrain polls running f (k + 1)
      (OEvent.poll false :: r.1, r.2)
    else ([OEvent.poll false, OEvent.stopObserved], WaitRes.stopped)

/-- How one cycle of `auto_capture` ends: `contin id` loops to the next
cycle holding `id`; `ret` is the `return` from inside the backpressure
wait; `fuelOut` means the wait exhausted its fuel. -/
inductive CycleRes where
  | contin (id : Nat)
  | ret
  | fuelOut
deriving DecidableEq, Repr

/-- One cycle of the `auto_capture` loop body (lines 341-420), given the
cycle's oracle, the wait fuel, and the current `image_id`:
sleep, capture; on capture failure (returned False or raised) run the
recovery branch — sleep 5, attempt `cam.stop()`, `cam.close()`,
`init_camera()` (their own failures are swallowed) — and `continue`
without touching `image_id`; on capture success run the hook if installed
(its failure is swallowed), call `ssdvify` with the raw `image_id`; on
FAIL sleep and `continue` without touching `image_id`; otherwise do the
backpressure wait, and on drain enqueue and advance
`image_id = (image_id + 1) % 256`. -/
def runCycle (o : CycleOracle) (wfuel : Nat) (id : Nat) :
    List OEvent × CycleRes :=
  match o.captureRes with
  | CapRes.ok =>
    let hookEvs := if o.hookPresent then [OEvent.postProc] else []
    let pre := [OEvent.cycleSleep, OEvent.captureCall] ++ hookEvs ++
      [OEvent.encodeCall (ssdvUsedId id)]
    match ssdvifyModel o.resizeOk o.encodeOk id with
    | none => (pre, CycleRes.contin id)
    | some _ =>
      let w := waitDrain o.polls o.runningInWait wfuel 0
      match w.2 with
      | WaitRes.drained =>
        (pre ++ w.1 ++ [OEvent.enqueue], CycleRes.contin ((id + 1) % 256))
      | WaitRes.stopped => (pre ++ w.1, CycleRes.ret)
      | WaitRes.fuelOut => (pre ++ w.1, CycleRes.fuelOut)
  | _ =>
    ([OEvent.cycleSleep, OEvent.captureCall, OEvent.recSleep,
      OEvent.camStopAtt, OEvent.camCloseAtt, OEvent.initAtt],
      CycleRes.contin id)

/-- How a (fuel-bounded) run of the `auto_capture` loop ends, carrying the
final value of the local `image_id`. -/
inductive LoopRes where
  | exitedTop (id : Nat)
  | stoppedInWait (id : Nat)
  | outOfFuel (id : Nat)
  | outOfCycles (id : Nat)
deriving DecidableEq, Repr

/-- The `auto_capture` loop (lines 339-424): `while self.auto_capture_running`,
with the oracle for cycle number `c` given by `os c`; at most `n` further
cycles are run (fuel), each backpressure wait getting `wfuel`. -/
def runLoop (os : Nat → CycleOracle) (wfuel : Nat) :
    Nat → Nat → Nat → List OEvent × LoopRes
  | 0, _, id => ([], LoopRes.outOfCycles id)
  | n + 1, c, id =>
    if (os c).runningAtTop then
      match runCycle (os c) wfuel id with
      | (evs, CycleRes.contin id2) =>
        let r := runLoop os wfuel n (c + 1) id2
        (evs ++ r.1, r.2)
      | (evs, CycleRes.ret) => (evs, LoopRes.stoppedInWait id)
      | (evs, CycleRes.fuelOut) => (evs, LoopRes.outOfFuel id)
    else ([], LoopRes.exitedTop id)

/-- The state of the "last poll result" while scanning an event list. -/
def lastPoll (s : Option Bool) : List OEvent → Option Bool
  | [] => s
  | e :: es =>
    lastPoll (match e with | OEvent.poll r => some r | _ => s) es

/-- Scans an event list and checks that every `enqueue` event happens while
the most recent `poll` before it (the state `s` coming in) returned `true`
(queue empty). -/
def pollChk (s : Option Bool) : List OEvent → Bool
  | [] => true
  | e :: es =>
    match e with
    | OEvent.poll r => pollChk (some r) es
    | OEvent.enqueue => (s == some true) && pollChk s es
    | _ => pollChk s es

/-- The all-success cycle oracle: running, capture succeeds, no hook, both
external tools succeed, the queue is empty at the first poll. -/
def allGood : CycleOracle :=
  { runningAtTop := true
    captureRes := CapRes.ok
    hookPresent := false
    hookRaises := false
    resizeOk := true
    encodeOk := true
    recStopOk := true
    recCloseOk := true
    recInitOk := true
    polls := fun _ => true
    runningInWait := fun _ => true }

/-- Events of the constructor's init-retry loop. -/
inductive IEvent where
  | tryInit (a : Nat)
  | sleepTen
deriving DecidableEq, Repr

/-- The constructor's init-retry loop (`__init__`, lines 109-116):
`while init_retries > 0: try init_camera(); break; except: log;
sleep(10); init_retries -= 1`.  `ok a` is the outcome of attempt number
`a` (0-based); the result records whether some attempt succeeded.  Note the
10-second sleep runs after every failed attempt (success breaks out before
it), and exhausting the retries simply falls out of the loop. -/
def initRetryLoop (ok : Nat → Bool) : Nat → Nat → List IEvent × Bool
  | 0, _ => ([], false)
  | r + 1, a =>
    if ok a then ([IEvent.tryInit a], true)
    else
      let rest := initRetryLoop ok r (a + 1)
      (IEvent.tryInit a :: IEvent.sleepTen :: rest.1, rest.2)

/-- The camera object as far as the constructor's contract is concerned:
whether `self.cam` holds a usable handle after `__init__` returns. -/
structure CamObj where
  camUsable : Bool
deriving DecidableEq, Repr

/-- `WenetPiCamera2.__init__` (lines 47-116) reduced to its retry loop:
it always returns an object — every exception of `init_camera` is caught
inside the loop, so no failure of any attempt escapes to the caller; if
all attempts fail the object simply has no usable camera handle. -/
def mkWenetPiCamera2 (ok : Nat → Bool) (init_retries : Nat) :
    List IEvent × CamObj :=
  let r := initRetryLoop ok init_retries 0
  (r.1, { camUsable := r.2 })

/-- The expected trace of an all-failing init-retry loop: each attempt
followed by the 10-second sleep. -/
def failTrace : Nat → Nat → List IEvent
  | 0, _ => []
  | r + 1, a => IEvent.tryInit a :: IEvent.sleepTen :: failTrace r (a + 1)

/-- The number of init attempts in an event list. -/
def countInitAttempts : List IEvent → Nat
  | [] => 0
  | IEvent.tryInit _ :: es => countInitAttempts es + 1
  | IEvent.sleepTen :: es => countInitAttempts es

/-- A plausible timestamped destination path produced by `auto_capture`
(line 347); it does not match the temp glob. -/
def destStr : String := "tx_images/20230101-000000Z_picam.jpg"

/-- The destination file name used in the concrete examples. -/
def destTx : FName := FName.plain destStr

/-- Continuous-autofocus configuration with two shots per round. -/
def cfgAF2 : CamConfig :=
  { num_images := 2
    image_delay := 0
    lens_position := -1
    hasLensControl := true
    temp_pfx := pfxPicam }

/-- Continuous-autofocus configuration with one shot per round. -/
def cfgAF1 : CamConfig :=
  { num_images := 1
    image_delay := 0
    lens_position := -1
    hasLensControl := true
    temp_pfx := pfxPicam }

/-- Continuous-autofocus configuration with three shots per round. -/
def cfgAF3 : CamConfig :=
  { num_images := 3
    image_delay := 0
    lens_position := -1
    hasLensControl := true
    temp_pfx := pfxPicam }

/-- Per-round-start configuration with five shots per round. -/
def cfgPR5 : CamConfig :=
  { num_images := 5
    image_delay := 0
    lens_position := 2
    hasLensControl := true
    temp_pfx := pfxPicam }

/-- Capture environment whose second shot raises. -/
def envFailAt1 : CaptureEnv :=
  { startOk := true
    shot := fun i => if i = 1 then none else some 10000 }

/-- Capture environment with every shot succeeding, alternating sizes. -/
def envAlt : CaptureEnv :=
  { startOk := true
    shot := fun i => some (10000 + 1000 * (i % 2)) }

/-- The spec scenario sizes: 10000, 15000, 12000 bytes. -/
def szSpec : Nat → Nat :=
  fun i => if i = 0 then 10000 else if i = 1 then 15000 else 12000

/-- Capture environment realising the spec scenario sizes. -/
def envSpec : CaptureEnv :=
  { startOk := true
    shot := fun i => some (szSpec i) }

/-- Cycle oracle in which the queue never reports empty and the running
flag reads false at the first in-wait check: a stop request arriving during
the backpressure wait. -/
def oStop : CycleOracle :=
  { runningAtTop := true
    captureRes := CapRes.ok
    hookPresent := false
    hookRaises := false
    resizeOk := true
    encodeOk := true
    recStopOk := true
    recCloseOk := true
    recInitOk := true
    polls := fun _ => false
    runningInWait := fun _ => false }

/-- Cycle oracle in which the capture raises and every recovery step also
fails. -/
def oCapFail : CycleOracle :=
  { runningAtTop := true
    captureRes := CapRes.raised
    hookPresent := false
    hookRaises := false
    resizeOk := true
    encodeOk := true
    recStopOk := false
    recCloseOk := false
    recInitOk := false
    polls := fun _ => true
    runningInWait := fun _ => true }

/-- Temp file names built from the prefix always match the temp glob. -/
theorem globMatch_temp (pfx : String) (i : Nat) :
    globMatch pfx (FName.temp pfx i) = true := by
  simp only [globMatch, FName.render, Bool.and_eq_true]
  constructor
  · rw [List.isPrefixOf_iff_prefix]
    exact ⟨(toString i).data ++ jpgExt.data, by
      simp [String.data_append, List.append_assoc]⟩
  · rw [List.isSuffixOf_iff_suffix]
    exact ⟨(pfx ++ undJpg ++ toString i).data, by
      simp [String.data_append, List.append_assoc]⟩

/-- `fsHas` distributes over filesystem concatenation. -/
theorem fsHas_append (name : FName) (a b : FS) :
    fsHas (a ++ b) name = (fsHas a name || fsHas b name) := by
  induction a with
  | nil => rfl
  | cons e rest ih => simp [fsHas, ih, Bool.or_assoc]

/-- Writing a fresh name appends the new entry at the end. -/
theorem fsWrite_of_not_has (name : FName) (sz : Nat) (fs : FS)
    (h : fsHas fs name = false) : fsWrite fs name sz = fs ++ [(name, sz)] := by
  induction fs with
  | nil => rfl
  | cons e rest ih =>
    simp only [fsHas, Bool.or_eq_false_iff, decide_eq_false_iff_not] at h
    simp only [fsWrite, if_neg h.1, List.cons_append, List.cons.injEq,
      true_and, ih h.2]

/-- Looking up the name just written returns the written size. -/
theorem fsLookup_fsWrite_self (name : FName) (sz : Nat) (fs : FS) :
    fsLookup (fsWrite fs name sz) name = some sz := by
  induction fs with
  | nil => simp [fsWrite, fsLookup]
  | cons e rest ih =>
    by_cases h : e.1 = name
    · simp [fsWrite, fsLookup, h]
    · simp [fsWrite, fsLookup, h, ih]

/-- One step of glob deletion. -/
theorem fsRemoveGlob_cons (pfx : String) (e : FName × Nat) (rest : FS) :
    fsRemoveGlob pfx (e :: rest) =
      if globMatch pfx e.1 then fsRemoveGlob pfx rest
      else e :: fsRemoveGlob pfx rest := by
  by_cases hm : globMatch pfx e.1 <;>
    simp [fsRemoveGlob, List.filter_cons, hm]

/-- One step of the glob listing. -/
theorem fsGlobList_cons (pfx : String) (e : FName × Nat) (rest : FS) :
    fsGlobList pfx (e :: rest) =
      if globMatch pfx e.1 then e :: fsGlobList pfx rest
      else fsGlobList pfx rest := by
  by_cases hm : globMatch pfx e.1 <;>
    simp [fsGlobList, List.filter_cons, hm]

/-- Deleting the glob does not affect lookups of non-matching names. -/
theorem fsLookup_removeGlob (pfx : String) (name : FName)
    (hname : globMatch pfx name = false) (fs : FS) :
    fsLookup (fsRemoveGlob pfx fs) name = fsLookup fs name := by
  induction fs with
  | nil => rfl
  | cons e rest ih =>
    rw [fsRemoveGlob_cons]
    by_cases he : e.1 = name
    · rw [he, hname, if_neg (by simp)]
      simp [fsLookup, he, ih]
    · by_cases hm : globMatch pfx e.1
      · rw [if_pos hm, ih]
        simp [fsLookup, he]
      · rw [if_neg (by simp [hm])]
        simp [fsLookup, he, ih]

/-- After deleting the glob, no file matches the glob. -/
theorem fsGlob_removeGlob (pfx : String) (fs : FS) :
    fsGlobList pfx (fsRemoveGlob pfx fs) = [] := by
  induction fs with
  | nil => rfl
  | cons e rest ih =>
    rw [fsRemoveGlob_cons]
    by_cases hm : globMatch pfx e.1
    · rw [if_pos hm]; exact ih
    · rw [if_neg (by simp [hm]), fsGlobList_cons, if_neg (by simp [hm])]
      exact ih

/-- `fsGlobList` distributes over filesystem concatenation. -/
theorem fsGlobList_append (pfx : String) (a b : FS) :
    fsGlobList pfx (a ++ b) = fsGlobList pfx a ++ fsGlobList pfx b := by
  simp [fsGlobList, List.filter_append]

/-- If no file matches the temp glob, then in particular no temp file of
that prefix exists. -/
theorem fsHas_temp_of_globClean (pfx : String) (k : Nat) (fs : FS)
    (h : fsGlobList pfx fs = []) : fsHas fs (FName.temp pfx k) = false := by
  induction fs with
  | nil => rfl
  | cons e rest ih =>
    rw [fsGlobList_cons] at h
    by_cases hm : globMatch pfx e.1
    · rw [if_pos hm] at h; exact absurd h (by simp)
    · rw [if_neg (by simp [hm])] at h
      have he : e.1 ≠ FName.temp pfx k := by
        intro heq
        rw [heq, globMatch_temp] at hm
        exact hm rfl
      simp [fsHas, he, ih h]

/-- The first-maximum scan returns `x` whenever `x` is among the candidates
(the accumulator included) and every other candidate is strictly smaller. -/
theorem firstMax_eq (x : FName × Nat) (l : FS) :
    ∀ a : FName × Nat,
      (a = x ∨ x ∈ l) → (a ≠ x → a.2 < x.2) →
      (∀ y ∈ l, y ≠ x → y.2 < x.2) →
      firstMax a l = x := by
  induction l with
  | nil =>
    intro a hin ha _
    rcases hin with h | h
    · exact h
    · exact absurd h (List.not_mem_nil _)
  | cons e rest ih =>
    intro a hin ha hl
    unfold firstMax
    by_cases hae : a.2 < e.2
    · rw [if_pos hae]
      refine ih e ?_ ?_ ?_
      · by_cases hex : e = x
        · exact Or.inl hex
        · have helt : e.2 < x.2 := hl e (List.mem_cons_self e rest) hex
          rcases hin with h | h
          · exact absurd (h ▸ hae) (Nat.lt_asymm helt)
          · rcases List.mem_cons.mp h with h' | h'
            · exact absurd h'.symm hex
            · exact Or.inr h'
      · exact fun hex => hl e (List.mem_cons_self e rest) hex
      · exact fun y hy => hl y (List.mem_cons_of_mem e hy)
    · rw [if_neg hae]
      refine ih a ?_ ha ?_
      · rcases hin with h | h
        · exact Or.inl h
        · rcases List.mem_cons.mp h with h' | h'
          · left
            by_contra hax
            exact hae (h' ▸ ha hax)
          · exact Or.inr h'
      · exact fun y hy => hl y (List.mem_cons_of_mem e hy)

/-- Best-image selection returns the unique strictly-largest candidate. -/
theorem bestPic_eq (l : FS) (x : FName × Nat)
    (hx : x ∈ l) (hmax : ∀ y ∈ l, y ≠ x → y.2 < x.2) :
    bestPic l = some x := by
  match l with
  | [] => exact absurd hx (List.not_mem_nil _)
  | e :: rest =>
    show some (firstMax e rest) = some x
    congr 1
    refine firstMax_eq x rest e ?_ ?_ ?_
    · rcases List.mem_cons.mp hx with h | h
      · exact Or.inl h.symm
      · exact Or.inr h
    · exact fun hex => hmax e (List.mem_cons_self e rest) hex
    · exact fun y hy => hmax y (List.mem_cons_of_mem e hy)

/-- Membership in the written-files list. -/
theorem mem_shotWrites (pfx : String) (sz : Nat → Nat) :
    ∀ (n i : Nat) (y : FName × Nat),
      y ∈ shotWrites pfx sz n i ↔
        ∃ j, i ≤ j ∧ j < i + n ∧ y = (FName.temp pfx j, sz j)
  | 0, i, y => by
    simp only [shotWrites, List.not_mem_nil, false_iff]
    rintro ⟨j, h1, h2, -⟩
    omega
  | n + 1, i, y => by
    simp only [shotWrites, List.mem_cons, mem_shotWrites pfx sz n (i + 1)]
    constructor
    · rintro (h | ⟨j, hj1, hj2, hj3⟩)
      · exact ⟨i, Nat.le_refl i, by omega, h⟩
      · exact ⟨j, by omega, by omega, hj3⟩
    · rintro ⟨j, hj1, hj2, hj3⟩
      by_cases hji : j = i
      · exact Or.inl (hji ▸ hj3)
      · exact Or.inr ⟨j, by omega, by omega, hj3⟩

/-- Every written temp file matches the temp glob, so the glob listing of
the written files is the whole list. -/
theorem fsGlob_shotWrites (pfx : String) (sz : Nat → Nat) :
    ∀ n i : Nat, fsGlobList pfx (shotWrites pfx sz n i) = shotWrites pfx sz n i
  | 0, _ => rfl
  | n + 1, i => by
    rw [shotWrites, fsGlobList_cons, if_pos (globMatch_temp pfx i),
      fsGlob_shotWrites pfx sz n (i + 1)]

/-- A fully successful shot loop writes exactly the `n` temp files and
appends exactly the shot trace, provided every shot in range succeeds and
none of the written names pre-exists. -/
theorem captureShots_ok (env : CaptureEnv) (cfg : CamConfig) (sz : Nat → Nat) :
    ∀ (n i : Nat) (fs : FS) (tr : List CEvent),
      (∀ j, i ≤ j → j < i + n → env.shot j = some (sz j)) →
      (∀ j, i ≤ j → j < i + n →
        fsHas fs (FName.temp cfg.temp_pfx j) = false) →
      captureShots env cfg n i fs tr =
        (true, fs ++ shotWrites cfg.temp_pfx sz n i,
          tr ++ shotsTrace cfg n i)
  | 0, i, fs, tr, _, _ => by simp [captureShots, shotWrites, shotsTrace]
  | n + 1, i, fs, tr, hshot, hfresh => by
    have hi : env.shot i = some (sz i) := hshot i (Nat.le_refl i) (by omega)
    simp only [captureShots, hi]
    have hw : fsWrite fs (FName.temp cfg.temp_pfx i) (sz i) =
        fs ++ [(FName.temp cfg.temp_pfx i, sz i)] :=
      fsWrite_of_not_has _ _ fs (hfresh i (Nat.le_refl i) (by omega))
    rw [hw, captureShots_ok env cfg sz n (i + 1) _ _
      (fun j h1 h2 => hshot j (by omega) (by omega))
      (fun j h1 h2 => by
        rw [fsHas_append]
        have h1' : fsHas fs (FName.temp cfg.temp_pfx j) = false :=
          hfresh j (by omega) (by omega)
        have h2' : fsHas [(FName.temp cfg.temp_pfx i, sz i)]
            (FName.temp cfg.temp_pfx j) = false := by
          simp only [fsHas, Bool.or_false, decide_eq_false_iff_not]
          intro hc
          have : i = j := by
            have := congrArg (fun f => match f with
              | FName.temp _ k => k
              | FName.plain _ => 0) hc
            simpa using this
          omega
        simp [h1', h2'])]
    simp [shotWrites, shotsTrace, List.append_assoc]

/-- A shot loop whose `k`-th shot raises (with all earlier shots
succeeding) aborts immediately: it returns `false`, leaves the `k` files
already written on disk, and its trace ends at attempt `k` — shots after
`k` are never attempted. -/
theorem captureShots_fail (env : CaptureEnv) (cfg : CamConfig) (sz : Nat → Nat) :
    ∀ (k n i : Nat) (fs : FS) (tr : List CEvent),
      k < n →
      (∀ j, i ≤ j → j < i + k → env.shot j = some (sz j)) →
      env.shot (i + k) = none →
      (∀ j, i ≤ j → j < i + k →
        fsHas fs (FName.temp cfg.temp_pfx j) = false) →
      captureShots env cfg n i fs tr =
        (false, fs ++ shotWrites cfg.temp_pfx sz k i,
          tr ++ shotsTrace cfg k i ++ [CEvent.attemptEv (i + k)])
  | 0, n, i, fs, tr, hk, _, hfail, _ => by
    obtain ⟨m, rfl⟩ : ∃ m, n = m + 1 := ⟨n - 1, by omega⟩
    rw [show i + 0 = i from rfl] at hfail
    simp only [captureShots, hfail]
    simp [shotWrites, shotsTrace]
  | k + 1, n, i, fs, tr, hk, hshot, hfail, hfresh => by
    obtain ⟨m, rfl⟩ : ∃ m, n = m + 1 := ⟨n - 1, by omega⟩
    have hi : env.shot i = some (sz i) := hshot i (Nat.le_refl i) (by omega)
    simp only [captureShots, hi]
    have hw : fsWrite fs (FName.temp cfg.temp_pfx i) (sz i) =
        fs ++ [(FName.temp cfg.temp_pfx i, sz i)] :=
      fsWrite_of_not_has _ _ fs (hfresh i (Nat.le_refl i) (by omega))
    rw [hw, captureShots_fail env cfg sz k m (i + 1) _ _
      (by omega)
      (fun j h1 h2 => hshot j (by omega) (by omega))
      (by rw [show i + 1 + k = i + (k + 1) from by omega]; exact hfail)
      (fun j h1 h2 => by
        rw [fsHas_append]
        have h1' : fsHas fs (FName.temp cfg.temp_pfx j) = false :=
          hfresh j (by omega) (by omega)
        have h2' : fsHas [(FName.temp cfg.temp_pfx i, sz i)]
            (FName.temp cfg.temp_pfx j) = false := by
          simp only [fsHas, Bool.or_false, decide_eq_false_iff_not]
          intro hc
          have : i = j := by
            have := congrArg (fun f => match f with
              | FName.temp _ k => k
              | FName.plain _ => 0) hc
            simpa using this
          omega
        simp [h1', h2'])]
    rw [show i + 1 + k = i + (k + 1) from by omega]
    simp [shotWrites, shotsTrace, List.append_assoc]

/-- The shot loop only appends to the incoming trace. -/
theorem captureShots_trace_ext (env : CaptureEnv) (cfg : CamConfig) :
    ∀ (n i : Nat) (fs : FS) (tr : List CEvent),
      ∃ t, (captureShots env cfg n i fs tr).2.2 = tr ++ t
  | 0, i, fs, tr => ⟨[], by simp [captureShots]⟩
  | n + 1, i, fs, tr => by
    cases hs : env.shot i with
    | some sz0 =>
      obtain ⟨t, ht⟩ := captureShots_trace_ext env cfg n (i + 1)
        (fsWrite fs (FName.temp cfg.temp_pfx i) sz0)
        (tr ++ [CEvent.attemptEv i, CEvent.capturedEv i] ++
          (if 0 < cfg.image_delay then [CEvent.delayEv] else []))
      refine ⟨[CEvent.attemptEv i, CEvent.capturedEv i] ++
        (if 0 < cfg.image_delay then [CEvent.delayEv] else []) ++ t, ?_⟩
      simp only [captureShots, hs, ht]
      simp [List.append_assoc]
    | none =>
      refine ⟨[CEvent.attemptEv i], ?_⟩
      simp only [captureShots, hs]

/-- The trace of the capture body always starts with the incoming trace
followed by the settle delay: the `sleep(3)` of line 239 is unconditional,
it runs before the first shot in both stream-start variants. -/
theorem runCaptureCore_trace (env : CaptureEnv) (cfg : CamConfig)
    (dest : FName) (fs : FS) (tr : List CEvent) :
    ∃ t, (runCaptureCore env cfg dest fs tr).2.2 =
      tr ++ CEvent.settleEv :: t := by
  obtain ⟨t0, ht0⟩ := captureShots_trace_ext env cfg cfg.num_images 0 fs
    (tr ++ [CEvent.settleEv])
  rcases hcs : captureShots env cfg cfg.num_images 0 fs
    (tr ++ [CEvent.settleEv]) with ⟨b, fs2, tr2⟩
  rw [hcs] at ht0
  cases b
  · exact ⟨t0, by
      simp only [runCaptureCore, hcs]
      simpa [List.append_assoc] using ht0⟩
  · rcases hbp : bestPic (fsGlobList cfg.temp_pfx fs2) with - | best
    · refine ⟨t0 ++ (if perRoundStart cfg then [CEvent.camStopEv] else []), ?_⟩
      simp only [runCaptureCore, hcs, hbp]
      simp only at ht0
      rw [ht0]
      simp [List.append_assoc]
    · refine ⟨t0 ++ (if perRoundStart cfg then [CEvent.camStopEv] else []) ++
        [CEvent.copyEv, CEvent.cleanupEv], ?_⟩
      simp only [runCaptureCore, hcs, hbp]
      simp only at ht0
      rw [ht0]
      simp [List.append_assoc]

/-- If the capture body reports success, every temp-glob file has been
deleted from the resulting filesystem (the `rm %s_*.jpg` of line 273). -/
theorem runCaptureCore_ok_glob (env : CaptureEnv) (cfg : CamConfig)
    (dest : FName) (fs : FS) (tr : List CEvent)
    (h : (runCaptureCore env cfg dest fs tr).1 = CapOutcome.ok) :
    fsGlobList cfg.temp_pfx (runCaptureCore env cfg dest fs tr).2.1 = [] := by
  rcases hcs : captureShots env cfg cfg.num_images 0 fs
    (tr ++ [CEvent.settleEv]) with ⟨b, fs2, tr2⟩
  cases b
  · simp only [runCaptureCore, hcs] at h
    exact absurd h (by simp)
  · rcases hbp : bestPic (fsGlobList cfg.temp_pfx fs2) with - | best
    · simp only [runCaptureCore, hcs, hbp] at h
      exact absurd h (by simp)
    · simp only [runCaptureCore, hcs, hbp]
      exact fsGlob_removeGlob cfg.temp_pfx _

/-- Master success lemma for the capture body: if every shot in range
succeeds, none of the written temp names pre-exists, the destination does
not match the temp glob, and `x` is the unique strictly-largest candidate
among the pre-existing glob files and the files written this round, then
the call succeeds, the destination holds `x`'s size, and no temp-glob file
remains. -/
theorem runCaptureCore_ok_picks (env : CaptureEnv) (cfg : CamConfig)
    (dest : FName) (fs : FS) (tr : List CEvent) (sz : Nat → Nat)
    (x : FName × Nat)
    (hshot : ∀ i, i < cfg.num_images → env.shot i = some (sz i))
    (hfresh : ∀ i, i < cfg.num_images →
      fsHas fs (FName.temp cfg.temp_pfx i) = false)
    (hdest : globMatch cfg.temp_pfx dest = false)
    (hx : x ∈ fsGlobList cfg.temp_pfx fs ++
      shotWrites cfg.temp_pfx sz cfg.num_images 0)
    (hmax : ∀ y ∈ fsGlobList cfg.temp_pfx fs ++
      shotWrites cfg.temp_pfx sz cfg.num_images 0, y ≠ x → y.2 < x.2) :
    (runCaptureCore env cfg dest fs tr).1 = CapOutcome.ok ∧
    fsLookup (runCaptureCore env cfg dest fs tr).2.1 dest = some x.2 ∧
    fsGlobList cfg.temp_pfx (runCaptureCore env cfg dest fs tr).2.1 = [] := by
  have hcs := captureShots_ok env cfg sz cfg.num_images 0 fs
    (tr ++ [CEvent.settleEv])
    (fun j _ h2 => hshot j (by omega))
    (fun j _ h2 => hfresh j (by omega))
  have hglob : fsGlobList cfg.temp_pfx
      (fs ++ shotWrites cfg.temp_pfx sz cfg.num_images 0) =
      fsGlobList cfg.temp_pfx fs ++
        shotWrites cfg.temp_pfx sz cfg.num_images 0 := by
    rw [fsGlobList_append, fsGlob_shotWrites]
  have hbp : bestPic (fsGlobList cfg.temp_pfx
      (fs ++ shotWrites cfg.temp_pfx sz cfg.num_images 0)) = some x := by
    rw [hglob]
    exact bestPic_eq _ x hx hmax
  refine ⟨?_, ?_, ?_⟩
  · simp [runCaptureCore, hcs, hbp]
  · simp only [runCaptureCore, hcs, hbp]
    rw [fsLookup_removeGlob cfg.temp_pfx dest hdest,
      fsLookup_fsWrite_self]
  · simp only [runCaptureCore, hcs, hbp]
    exact fsGlob_removeGlob cfg.temp_pfx _

/-- Lift of `runCaptureCore_ok_picks` to `runCapture`: the stream-start
variant additionally needs the start to succeed. -/
theorem runCapture_ok_picks (env : CaptureEnv) (cfg : CamConfig)
    (dest : FName) (fs : FS) (sz : Nat → Nat) (x : FName × Nat)
    (hstart : perRoundStart cfg = true → env.startOk = true)
    (hshot : ∀ i, i < cfg.num_images → env.shot i = some (sz i))
    (hfresh : ∀ i, i < cfg.num_images →
      fsHas fs (FName.temp cfg.temp_pfx i) = false)
    (hdest : globMatch cfg.temp_pfx dest = false)
    (hx : x ∈ fsGlobList cfg.temp_pfx fs ++
      shotWrites cfg.temp_pfx sz cfg.num_images 0)
    (hmax : ∀ y ∈ fsGlobList cfg.temp_pfx fs ++
      shotWrites cfg.temp_pfx sz cfg.num_images 0, y ≠ x → y.2 < x.2) :
    (runCapture env cfg dest fs).1 = CapOutcome.ok ∧
    fsLookup (runCapture env cfg dest fs).2.1 dest = some x.2 ∧
    fsGlobList cfg.temp_pfx (runCapture env cfg dest fs).2.1 = [] := by
  unfold runCapture
  by_cases hpr : perRoundStart cfg = true
  · rw [if_pos hpr, hstart hpr, if_pos rfl]
    exact runCaptureCore_ok_picks env cfg dest fs _ sz x hshot hfresh hdest hx hmax
  · rw [if_neg hpr]
    exact runCaptureCore_ok_picks env cfg dest fs _ sz x hshot hfresh hdest hx hmax

-- scratch tests, to be removed

/-- An attempt event inside the all-success shot trace has its index in the
covered range. -/
theorem attemptEv_mem_shotsTrace (cfg : CamConfig) :
    ∀ (n i m : Nat), CEvent.attemptEv m ∈ shotsTrace cfg n i →
      i ≤ m ∧ m < i + n
  | 0, i, m, h => absurd h (List.not_mem_nil _)
  | n + 1, i, m, h => by
    have hrec := attemptEv_mem_shotsTrace cfg n (i + 1) m
    by_cases hd : 0 < cfg.image_delay
    · simp [shotsTrace, hd] at h
      rcases h with rfl | h
      · omega
      · have := hrec h
        omega
    · simp [shotsTrace, hd] at h
      rcases h with rfl | h
      · omega
      · have := hrec h
        omega

/-- If shot `k` raises (earlier shots succeeding), the capture body fails
and its trace ends at attempt `k`. -/
theorem runCaptureCore_fail_abort (env : CaptureEnv) (cfg : CamConfig)
    (dest : FName) (fs : FS) (tr : List CEvent) (sz : Nat → Nat) (k : Nat)
    (hk : k < cfg.num_images)
    (hshot : ∀ j, j < k → env.shot j = some (sz j))
    (hfail : env.shot k = none)
    (hfresh : ∀ j, j < k → fsHas fs (FName.temp cfg.temp_pfx j) = false) :
    (runCaptureCore env cfg dest fs tr).1 = CapOutcome.failed ∧
    (runCaptureCore env cfg dest fs tr).2.2 =
      tr ++ CEvent.settleEv :: (shotsTrace cfg k 0 ++ [CEvent.attemptEv k]) := by
  have hcs := captureShots_fail env cfg sz k cfg.num_images 0 fs
    (tr ++ [CEvent.settleEv]) hk
    (fun j _ h2 => hshot j (by omega))
    (by rw [Nat.zero_add]; exact hfail)
    (fun j _ h2 => hfresh j (by omega))
  rw [Nat.zero_add] at hcs
  constructor
  · simp [runCaptureCore, hcs]
  · simp only [runCaptureCore, hcs]
    simp [List.append_assoc]

/-- C1 (amended): the `capture` operation deletes all temp-glob files
before returning only when it reports success; on the failure paths (start
failure, mid-round capture error) no cleanup is performed and the files
written so far remain on disk (see `c1_counterexample`). -/
theorem c1_success_deletes_temps (env : CaptureEnv) (cfg : CamConfig)
    (dest : FName) (fs : FS)
    (h : (runCapture env cfg dest fs).1 = CapOutcome.ok) :
    fsGlobList cfg.temp_pfx (runCapture env cfg dest fs).2.1 = [] := by
  unfold runCapture at h ⊢
  by_cases hpr : perRoundStart cfg = true
  · rw [if_pos hpr] at h ⊢
    by_cases hs : env.startOk = true
    · rw [if_pos hs] at h ⊢
      exact runCaptureCore_ok_glob env cfg dest fs _ h
    · rw [if_neg hs] at h
      simp at h
  · rw [if_neg hpr] at h ⊢
    exact runCaptureCore_ok_glob env cfg dest fs _ h

/-- C1 (counterexample to the claim as stated): a round of two shots whose
second shot raises makes `capture` report failure while the temp file of
the first shot is still on disk — temporary files are not deleted on the
failure path. -/
theorem c1_counterexample :
    (runCapture envFailAt1 cfgAF2 destTx []).1 = CapOutcome.failed ∧
    fsGlobList pfxPicam (runCapture envFailAt1 cfgAF2 destTx []).2.1 =
      [(FName.temp pfxPicam 0, 10000)] := by decide

/-- C1 (witness): a concrete successful round after which no temp-glob
file remains. -/
theorem c1_witness :
    (runCapture envAlt cfgAF2 destTx []).1 = CapOutcome.ok ∧
    fsGlobList pfxPicam (runCapture envAlt cfgAF2 destTx []).2.1 = [] :=
  ⟨by decide, c1_success_deletes_temps envAlt cfgAF2 destTx [] (by decide)⟩

/-- C2: on a successful round of `num_images ≥ 1` shots with pairwise
distinct sizes over a temp-clean filesystem, `capture` reports success,
the destination receives the strictly largest of the round's sizes, and
all temp-glob files are deleted. -/
theorem c2_best_image_selected (env : CaptureEnv) (cfg : CamConfig)
    (dest : FName) (fs : FS) (sz : Nat → Nat)
    (hN : 1 ≤ cfg.num_images)
    (hstart : perRoundStart cfg = true → env.startOk = true)
    (hshot : ∀ i, i < cfg.num_images → env.shot i = some (sz i))
    (hdist : ∀ i, i < cfg.num_images → ∀ j, j < cfg.num_images →
      sz i = sz j → i = j)
    (hclean : fsGlobList cfg.temp_pfx fs = [])
    (hdest : globMatch cfg.temp_pfx dest = false) :
    ∃ j, j < cfg.num_images ∧ (∀ i, i < cfg.num_images → sz i ≤ sz j) ∧
      (runCapture env cfg dest fs).1 = CapOutcome.ok ∧
      fsLookup (runCapture env cfg dest fs).2.1 dest = some (sz j) ∧
      fsGlobList cfg.temp_pfx (runCapture env cfg dest fs).2.1 = [] := by
  obtain ⟨j, hj, hjmax⟩ := Finset.exists_max_image
    (Finset.range cfg.num_images) sz
    (by rw [Finset.nonempty_range_iff]; omega)
  rw [Finset.mem_range] at hj
  refine ⟨j, hj, fun i hi => hjmax i (Finset.mem_range.mpr hi), ?_⟩
  have hfresh : ∀ i, i < cfg.num_images →
      fsHas fs (FName.temp cfg.temp_pfx i) = false :=
    fun i _ => fsHas_temp_of_globClean cfg.temp_pfx i fs hclean
  have hx : (FName.temp cfg.temp_pfx j, sz j) ∈
      fsGlobList cfg.temp_pfx fs ++
        shotWrites cfg.temp_pfx sz cfg.num_images 0 := by
    rw [hclean, List.nil_append]
    exact (mem_shotWrites cfg.temp_pfx sz cfg.num_images 0 _).mpr
      ⟨j, by omega, by omega, rfl⟩
  have hmax : ∀ y ∈ fsGlobList cfg.temp_pfx fs ++
      shotWrites cfg.temp_pfx sz cfg.num_images 0,
      y ≠ (FName.temp cfg.temp_pfx j, sz j) →
      y.2 < (FName.temp cfg.temp_pfx j, sz j).2 := by
    intro y hy hne
    rw [hclean, List.nil_append] at hy
    obtain ⟨i, -, hiN, rfl⟩ :=
      (mem_shotWrites cfg.temp_pfx sz cfg.num_images 0 y).mp hy
    have hle : sz i ≤ sz j := hjmax i (Finset.mem_range.mpr (by omega))
    have hij : i ≠ j := by
      intro he
      exact hne (by rw [he])
    have hsz : sz i ≠ sz j := fun he => hij (hdist i (by omega) j hj he)
    show sz i < sz j
    omega
  exact runCapture_ok_picks env cfg dest fs sz
    (FName.temp cfg.temp_pfx j, sz j) hstart hshot hfresh hdest hx hmax

/-- C2 (witness): the spec scenario — three shots of sizes 10000, 15000,
12000 bytes; the 15000-byte file wins, is copied to the destination, and
the temp files are deleted. -/
theorem c2_witness :
    (∀ i, i < cfgAF3.num_images → envSpec.shot i = some (szSpec i)) ∧
    (∃ j, j < cfgAF3.num_images ∧
      (∀ i, i < cfgAF3.num_images → szSpec i ≤ szSpec j) ∧
      (runCapture envSpec cfgAF3 destTx []).1 = CapOutcome.ok ∧
      fsLookup (runCapture envSpec cfgAF3 destTx []).2.1 destTx =
        some (szSpec j) ∧
      fsGlobList pfxPicam (runCapture envSpec cfgAF3 destTx []).2.1 = []) :=
  ⟨by decide,
    c2_best_image_selected envSpec cfgAF3 destTx [] szSpec (by decide)
      (by decide) (by decide) (by decide) (by decide) (by decide)⟩

/-- C4 (amended): the fixed settle delay precedes the first capture of a
round in both variants — including the continuous-autofocus variant, where
the stream was started at open time: `sleep(3)` (line 239) is
unconditional.  Formally, whenever the round reaches its shots, the trace
is some prefix containing no capture attempt, then the settle event. -/
theorem c4_settle_delay_both_variants (env : CaptureEnv) (cfg : CamConfig)
    (dest : FName) (fs : FS)
    (hreach : perRoundStart cfg = false ∨ env.startOk = true) :
    ∃ pre t, (runCapture env cfg dest fs).2.2 =
        pre ++ CEvent.settleEv :: t ∧
      ∀ i, CEvent.attemptEv i ∉ pre := by
  unfold runCapture
  by_cases hpr : perRoundStart cfg = true
  · have hs : env.startOk = true := by
      rcases hreach with h | h
      · rw [hpr] at h
        exact absurd h (by simp)
      · exact h
    rw [if_pos hpr, if_pos hs]
    obtain ⟨t, ht⟩ := runCaptureCore_trace env cfg dest fs [CEvent.camStartEv]
    exact ⟨[CEvent.camStartEv], t, ht, by intro i; simp⟩
  · rw [if_neg hpr]
    obtain ⟨t, ht⟩ := runCaptureCore_trace env cfg dest fs []
    exact ⟨[], t, ht, by intro i; simp⟩

/-- C4 (counterexample to the claim as stated): in the continuous-autofocus
variant (`perRoundStart = false`) the settle delay still occurs, and it
precedes the first capture attempt: the trace of a concrete
autofocus-mode round starts with the settle event. -/
theorem c4_counterexample :
    perRoundStart cfgAF1 = false ∧
    (runCapture envAlt cfgAF1 destTx []).2.2 =
      [CEvent.settleEv, CEvent.attemptEv 0, CEvent.capturedEv 0,
        CEvent.copyEv, CEvent.cleanupEv] := by decide

/-- C4 (witness): the amended theorem applied to the concrete
autofocus-mode round. -/
theorem c4_witness :
    (perRoundStart cfgAF1 = false ∨ envAlt.startOk = true) ∧
    (∃ pre t, (runCapture envAlt cfgAF1 destTx []).2.2 =
        pre ++ CEvent.settleEv :: t ∧
      ∀ i, CEvent.attemptEv i ∉ pre) :=
  ⟨by decide,
    c4_settle_delay_both_variants envAlt cfgAF1 destTx [] (by decide)⟩

/-- C8: if shot `k` of a round raises while all earlier shots succeed
(`k < num_images`), `capture` reports failure, shot `k` was attempted, and
no shot after `k` is ever attempted — the round aborts immediately. -/
theorem c8_abort_on_capture_error (env : CaptureEnv) (cfg : CamConfig)
    (dest : FName) (fs : FS) (sz : Nat → Nat) (k : Nat)
    (hstart : perRoundStart cfg = true → env.startOk = true)
    (hk : k < cfg.num_images)
    (hshot : ∀ j, j < k → env.shot j = some (sz j))
    (hfail : env.shot k = none)
    (hfresh : ∀ j, j < k → fsHas fs (FName.temp cfg.temp_pfx j) = false) :
    (runCapture env cfg dest fs).1 = CapOutcome.failed ∧
    CEvent.attemptEv k ∈ (runCapture env cfg dest fs).2.2 ∧
    ∀ m, k < m → CEvent.attemptEv m ∉ (runCapture env cfg dest fs).2.2 := by
  unfold runCapture
  by_cases hpr : perRoundStart cfg = true
  · rw [if_pos hpr, hstart hpr, if_pos rfl]
    obtain ⟨h1, h2⟩ := runCaptureCore_fail_abort env cfg dest fs
      [CEvent.camStartEv] sz k hk hshot hfail hfresh
    refine ⟨h1, ?_, ?_⟩
    · rw [h2]
      simp
    · intro m hm hmem
      rw [h2] at hmem
      simp [List.mem_append] at hmem
      rcases hmem with h | h
      · have := attemptEv_mem_shotsTrace cfg k 0 m h
        omega
      · omega
  · rw [if_neg hpr]
    obtain ⟨h1, h2⟩ := runCaptureCore_fail_abort env cfg dest fs
      [] sz k hk hshot hfail hfresh
    refine ⟨h1, ?_, ?_⟩
    · rw [h2]
      simp
    · intro m hm hmem
      rw [h2] at hmem
      simp [List.mem_append] at hmem
      rcases hmem with h | h
      · have := attemptEv_mem_shotsTrace cfg k 0 m h
        omega
      · omega

/-- C8 (witness): the spec scenario — a round of five shots whose second
shot (index 1) raises: the round fails, attempt 1 happened, attempts 2-4
never run. -/
theorem c8_witness :
    (envFailAt1.shot 1 = none ∧ 1 < cfgPR5.num_images) ∧
    ((runCapture envFailAt1 cfgPR5 destTx []).1 = CapOutcome.failed ∧
      CEvent.attemptEv 1 ∈ (runCapture envFailAt1 cfgPR5 destTx []).2.2 ∧
      ∀ m, 1 < m →
        CEvent.attemptEv m ∉ (runCapture envFailAt1 cfgPR5 destTx []).2.2) :=
  ⟨by decide,
    c8_abort_on_capture_error envFailAt1 cfgPR5 destTx []
      (fun i => if i = 1 then 0 else 10000) 1 (by decide) (by decide)
      (by decide) (by decide) (by decide)⟩

/-- C9: the best-image selection runs over every file on disk matching the
temp glob, not only the files written this round: a leftover temp file
(index `m`, size `L`) already on disk that is strictly larger than every
other glob-matching file and every size written this round wins the
selection — the destination receives the leftover's size. -/
theorem c9_leftover_can_win (env : CaptureEnv) (cfg : CamConfig)
    (dest : FName) (fs : FS) (sz : Nat → Nat) (m L : Nat)
    (hstart : perRoundStart cfg = true → env.startOk = true)
    (hshot : ∀ i, i < cfg.num_images → env.shot i = some (sz i))
    (hfresh : ∀ i, i < cfg.num_images →
      fsHas fs (FName.temp cfg.temp_pfx i) = false)
    (hleft : (FName.temp cfg.temp_pfx m, L) ∈ fsGlobList cfg.temp_pfx fs)
    (hmax1 : ∀ e ∈ fsGlobList cfg.temp_pfx fs,
      e ≠ (FName.temp cfg.temp_pfx m, L) → e.2 < L)
    (hmax2 : ∀ i, i < cfg.num_images → sz i < L)
    (hdest : globMatch cfg.temp_pfx dest = false) :
    (runCapture env cfg dest fs).1 = CapOutcome.ok ∧
    fsLookup (runCapture env cfg dest fs).2.1 dest = some L := by
  have hx : (FName.temp cfg.temp_pfx m, L) ∈
      fsGlobList cfg.temp_pfx fs ++
        shotWrites cfg.temp_pfx sz cfg.num_images 0 :=
    List.mem_append_left _ hleft
  have hmax : ∀ y ∈ fsGlobList cfg.temp_pfx fs ++
      shotWrites cfg.temp_pfx sz cfg.num_images 0,
      y ≠ (FName.temp cfg.temp_pfx m, L) →
      y.2 < (FName.temp cfg.temp_pfx m, L).2 := by
    intro y hy hne
    rcases List.mem_append.mp hy with h | h
    · exact hmax1 y h hne
    · obtain ⟨i, -, hiN, rfl⟩ :=
        (mem_shotWrites cfg.temp_pfx sz cfg.num_images 0 y).mp h
      exact hmax2 i (by omega)
  have := runCapture_ok_picks env cfg dest fs sz
    (FName.temp cfg.temp_pfx m, L) hstart hshot hfresh hdest hx hmax
  exact ⟨this.1, this.2.1⟩

/-- C9 (witness): a leftover `picam_temp_5.jpg` of 99999 bytes from an
earlier aborted round beats the three 10000-15000 byte shots of the
current round and ends up copied to the destination. -/
theorem c9_witness :
    ((FName.temp pfxPicam 5, 99999) ∈
      fsGlobList pfxPicam [(FName.temp pfxPicam 5, 99999)]) ∧
    ((runCapture envSpec cfgAF3 destTx
        [(FName.temp pfxPicam 5, 99999)]).1 = CapOutcome.ok ∧
      fsLookup (runCapture envSpec cfgAF3 destTx
        [(FName.temp pfxPicam 5, 99999)]).2.1 destTx = some 99999) :=
  ⟨by decide,
    c9_leftover_can_win envSpec cfgAF3 destTx
      [(FName.temp pfxPicam 5, 99999)] szSpec 5 99999 (by decide)
      (by decide) (by decide) (by decide) (by decide) (by decide)
      (by decide)⟩

/-- Every event emitted inside the backpressure wait is a poll or the
stop observation. -/
theorem waitDrain_mem (polls running : Nat → Bool) :
    ∀ (f k : Nat), ∀ ev ∈ (waitDrain polls running f k).1,
      (∃ b, ev = OEvent.poll b) ∨ ev = OEvent.stopObserved
  | 0, k, ev, h => by
    by_cases h1 : polls k
    · simp [waitDrain, h1] at h
      exact Or.inl ⟨true, h⟩
    · by_cases h2 : running k
      · simp [waitDrain, h1, h2] at h
        exact Or.inl ⟨false, h⟩
      · simp [waitDrain, h1, h2] at h
        rcases h with h | h
        · exact Or.inl ⟨false, h⟩
        · exact Or.inr h
  | f + 1, k, ev, h => by
    by_cases h1 : polls k
    · simp [waitDrain, h1] at h
      exact Or.inl ⟨true, h⟩
    · by_cases h2 : running k
      · simp only [waitDrain, h1, h2, Bool.false_eq_true, if_false, if_true,
          List.mem_cons] at h
        rcases h with h | h
        · exact Or.inl ⟨false, h⟩
        · exact waitDrain_mem polls running f (k + 1) ev h
      · simp [waitDrain, h1, h2] at h
        rcases h with h | h
        · exact Or.inl ⟨false, h⟩
        · exact Or.inr h

/-- The wait never enqueues. -/
theorem waitDrain_no_enqueue (polls running : Nat → Bool) (f k : Nat) :
    OEvent.enqueue ∉ (waitDrain polls running f k).1 := by
  intro h
  rcases waitDrain_mem polls running f k _ h with ⟨b, hb⟩ | hb <;> cases hb

/-- The wait never calls the encoder. -/
theorem waitDrain_no_encode (polls running : Nat → Bool) (f k u : Nat) :
    OEvent.encodeCall u ∉ (waitDrain polls running f k).1 := by
  intro h
  rcases waitDrain_mem polls running f k _ h with ⟨b, hb⟩ | hb <;> cases hb

/-- A drained wait's event list ends with a poll that returned `true`:
the loop `while tx.image_queue_empty() == False` exits only on an
empty-queue poll. -/
theorem waitDrain_drained_last (polls running : Nat → Bool) :
    ∀ (f k : Nat), (waitDrain polls running f k).2 = WaitRes.drained →
      ∃ evs, (waitDrain polls running f k).1 = evs ++ [OEvent.poll true]
  | 0, k, h => by
    by_cases h1 : polls k
    · exact ⟨[], by simp [waitDrain, h1]⟩
    · by_cases h2 : running k <;> simp [waitDrain, h1, h2] at h
  | f + 1, k, h => by
    by_cases h1 : polls k
    · exact ⟨[], by simp [waitDrain, h1]⟩
    · by_cases h2 : running k
      · simp only [waitDrain, h1, h2, Bool.false_eq_true, if_false, if_true] at h ⊢
        obtain ⟨evs, hevs⟩ := waitDrain_drained_last polls running f (k + 1) h
        exact ⟨OEvent.poll false :: evs, by simp [hevs]⟩
      · simp [waitDrain, h1, h2] at h

/-- When every poll reports empty, the wait drains on the first poll. -/
theorem waitDrain_allTrue (running : Nat → Bool) (f k : Nat) :
    waitDrain (fun _ => true) running f k =
      ([OEvent.poll true], WaitRes.drained) := by
  cases f <;> simp [waitDrain]

/-- `lastPoll` composes over concatenation. -/
theorem lastPoll_append (a b : List OEvent) :
    ∀ s, lastPoll s (a ++ b) = lastPoll (lastPoll s a) b := by
  induction a with
  | nil => intro s; rfl
  | cons e es ih =>
    intro s
    cases e <;> simp [lastPoll, ih]

/-- `pollChk` composes over concatenation. -/
theorem pollChk_append (a b : List OEvent) :
    ∀ s, pollChk s (a ++ b) =
      (pollChk s a && pollChk (lastPoll s a) b) := by
  induction a with
  | nil => intro s; simp [pollChk, lastPoll]
  | cons e es ih =>
    intro s
    cases e <;> simp [pollChk, lastPoll, ih, Bool.and_assoc]

/-- An event list with no enqueue passes the poll check from any state. -/
theorem pollChk_of_no_enqueue (l : List OEvent) :
    ∀ s, OEvent.enqueue ∉ l → pollChk s l = true := by
  induction l with
  | nil => intro s _; rfl
  | cons e es ih =>
    intro s h
    have h2 : OEvent.enqueue ∉ es := fun hm => h (List.mem_cons_of_mem e hm)
    cases e <;>
      first
        | exact absurd (List.mem_cons_self _ _) h
        | (simp only [pollChk]; exact ih _ h2)

/-- A cycle whose capture fails (returned False or raised) runs exactly the
recovery branch — stop, close, init attempts — and continues with the same
image id, whatever the outcomes of the recovery steps themselves. -/
theorem runCycle_recovery (o : CycleOracle) (wfuel id : Nat)
    (h : o.captureRes ≠ CapRes.ok) :
    runCycle o wfuel id =
      ([OEvent.cycleSleep, OEvent.captureCall, OEvent.recSleep,
        OEvent.camStopAtt, OEvent.camCloseAtt, OEvent.initAtt],
        CycleRes.contin id) := by
  cases hcr : o.captureRes with
  | ok => exact absurd hcr h
  | failedFalse => simp [runCycle, hcr]
  | raised => simp [runCycle, hcr]

/-- A cycle whose encode step fails continues with the same image id,
without reaching the wait or the enqueue. -/
theorem runCycle_encodeFail (o : CycleOracle) (wfuel id : Nat)
    (hcr : o.captureRes = CapRes.ok)
    (hsv : ssdvifyModel o.resizeOk o.encodeOk id = none) :
    runCycle o wfuel id =
      ([OEvent.cycleSleep, OEvent.captureCall] ++
        (if o.hookPresent then [OEvent.postProc] else []) ++
        [OEvent.encodeCall (ssdvUsedId id)], CycleRes.contin id) := by
  simp [runCycle, hcr, hsv]

/-- A cycle whose wait drains enqueues and advances the id modulo 256. -/
theorem runCycle_drained (o : CycleOracle) (wfuel id : Nat)
    (hcr : o.captureRes = CapRes.ok)
    (hrz : o.resizeOk = true) (hen : o.encodeOk = true)
    (hw : (waitDrain o.polls o.runningInWait wfuel 0).2 = WaitRes.drained) :
    runCycle o wfuel id =
      ([OEvent.cycleSleep, OEvent.captureCall] ++
        (if o.hookPresent then [OEvent.postProc] else []) ++
        [OEvent.encodeCall (ssdvUsedId id)] ++
        (waitDrain o.polls o.runningInWait wfuel 0).1 ++
        [OEvent.enqueue], CycleRes.contin ((id + 1) % 256)) := by
  simp [runCycle, hcr, ssdvifyModel, hrz, hen, hw]

/-- A cycle whose wait observes the cleared running flag returns from the
loop function without enqueuing. -/
theorem runCycle_stopped (o : CycleOracle) (wfuel id : Nat)
    (hcr : o.captureRes = CapRes.ok)
    (hrz : o.resizeOk = true) (hen : o.encodeOk = true)
    (hw : (waitDrain o.polls o.runningInWait wfuel 0).2 = WaitRes.stopped) :
    runCycle o wfuel id =
      ([OEvent.cycleSleep, OEvent.captureCall] ++
        (if o.hookPresent then [OEvent.postProc] else []) ++
        [OEvent.encodeCall (ssdvUsedId id)] ++
        (waitDrain o.polls o.runningInWait wfuel 0).1,
        CycleRes.ret) := by
  simp [runCycle, hcr, ssdvifyModel, hrz, hen, hw]

/-- A cycle whose wait runs out of fuel reports that. -/
theorem runCycle_fuelOut (o : CycleOracle) (wfuel id : Nat)
    (hcr : o.captureRes = CapRes.ok)
    (hrz : o.resizeOk = true) (hen : o.encodeOk = true)
    (hw : (waitDrain o.polls o.runningInWait wfuel 0).2 = WaitRes.fuelOut) :
    runCycle o wfuel id =
      ([OEvent.cycleSleep, OEvent.captureCall] ++
        (if o.hookPresent then [OEvent.postProc] else []) ++
        [OEvent.encodeCall (ssdvUsedId id)] ++
        (waitDrain o.polls o.runningInWait wfuel 0).1,
        CycleRes.fuelOut) := by
  simp [runCycle, hcr, ssdvifyModel, hrz, hen, hw]

/-- A successful ssdvify outcome forces both external steps to have
succeeded. -/
theorem ssdvifyModel_some (rz en : Bool) (id v : Nat)
    (h : ssdvifyModel rz en id = some v) : rz = true ∧ en = true := by
  cases rz <;> cases en <;> simp_all [ssdvifyModel]

/-- Any encode-call event a cycle emits carries exactly the mod-256
reduction of the cycle's image id. -/
theorem runCycle_encode_mem (o : CycleOracle) (wfuel id u : Nat)
    (h : OEvent.encodeCall u ∈ (runCycle o wfuel id).1) :
    u = ssdvUsedId id := by
  by_cases hcr : o.captureRes = CapRes.ok
  · rcases hsv : ssdvifyModel o.resizeOk o.encodeOk id with - | v
    · rw [runCycle_encodeFail o wfuel id hcr hsv] at h
      by_cases hh : o.hookPresent <;> simp [hh] at h <;> exact h
    · obtain ⟨hrz, hen⟩ := ssdvifyModel_some _ _ _ _ hsv
      cases hw : (waitDrain o.polls o.runningInWait wfuel 0).2 with
      | drained =>
        rw [runCycle_drained o wfuel id hcr hrz hen hw] at h
        by_cases hh : o.hookPresent <;> simp [hh] at h <;>
          rcases h with h | h <;>
          first
            | exact h
            | exact absurd h (waitDrain_no_encode _ _ _ _ _)
      | stopped =>
        rw [runCycle_stopped o wfuel id hcr hrz hen hw] at h
        by_cases hh : o.hookPresent <;> simp [hh] at h <;>
          rcases h with h | h <;>
          first
            | exact h
            | exact absurd h (waitDrain_no_encode _ _ _ _ _)
      | fuelOut =>
        rw [runCycle_fuelOut o wfuel id hcr hrz hen hw] at h
        by_cases hh : o.hookPresent <;> simp [hh] at h <;>
          rcases h with h | h <;>
          first
            | exact h
            | exact absurd h (waitDrain_no_encode _ _ _ _ _)
  · rw [runCycle_recovery o wfuel id hcr] at h
    simp at h

/-- A cycle that continues advances the id by one modulo 256 exactly when
it enqueued, and keeps it unchanged exactly when it did not. -/
theorem runCycle_contin_advance (o : CycleOracle) (wfuel id id2 : Nat)
    (h : (runCycle o wfuel id).2 = CycleRes.contin id2) :
    (OEvent.enqueue ∈ (runCycle o wfuel id).1 ∧ id2 = (id + 1) % 256) ∨
    (OEvent.enqueue ∉ (runCycle o wfuel id).1 ∧ id2 = id) := by
  by_cases hcr : o.captureRes = CapRes.ok
  · rcases hsv : ssdvifyModel o.resizeOk o.encodeOk id with - | v
    · rw [runCycle_encodeFail o wfuel id hcr hsv] at h ⊢
      simp only at h
      right
      refine ⟨?_, by injection h.symm⟩
      by_cases hh : o.hookPresent <;> simp [hh]
    · obtain ⟨hrz, hen⟩ := ssdvifyModel_some _ _ _ _ hsv
      cases hw : (waitDrain o.polls o.runningInWait wfuel 0).2 with
      | drained =>
        rw [runCycle_drained o wfuel id hcr hrz hen hw] at h ⊢
        simp only at h
        left
        exact ⟨by simp, by injection h.symm⟩
      | stopped =>
        rw [runCycle_stopped o wfuel id hcr hrz hen hw] at h
        simp at h
      | fuelOut =>
        rw [runCycle_fuelOut o wfuel id hcr hrz hen hw] at h
        simp at h
  · rw [runCycle_recovery o wfuel id hcr] at h ⊢
    simp only at h
    right
    refine ⟨by simp, by injection h.symm⟩

/-- Helper for the poll check: an enqueue-free block followed by the
drained wait and the enqueue passes the check from any state. -/
theorem pollChk_block (pre : List OEvent) (polls running : Nat → Bool)
    (f : Nat) (s : Option Bool)
    (hpre : OEvent.enqueue ∉ pre)
    (hw : (waitDrain polls running f 0).2 = WaitRes.drained) :
    pollChk s ((pre ++ (waitDrain polls running f 0).1) ++
      [OEvent.enqueue]) = true := by
  obtain ⟨evs0, hevs⟩ := waitDrain_drained_last polls running f 0 hw
  rw [pollChk_append, pollChk_of_no_enqueue _ _ ?hne, lastPoll_append,
    hevs, lastPoll_append]
  case hne =>
    intro hm
    rcases List.mem_append.mp hm with hm | hm
    · exact hpre hm
    · exact waitDrain_no_enqueue polls running f 0 hm
  simp [pollChk, lastPoll]

/-- Every cycle's event list passes the poll check from any incoming
last-poll state: an enqueue can only follow an in-cycle empty poll. -/
theorem runCycle_pollChk (o : CycleOracle) (wfuel id : Nat) (s : Option Bool) :
    pollChk s (runCycle o wfuel id).1 = true := by
  by_cases hcr : o.captureRes = CapRes.ok
  · rcases hsv : ssdvifyModel o.resizeOk o.encodeOk id with - | v
    · have h1 : (runCycle o wfuel id).1 =
          [OEvent.cycleSleep, OEvent.captureCall] ++
          (if o.hookPresent then [OEvent.postProc] else []) ++
          [OEvent.encodeCall (ssdvUsedId id)] := by
        rw [runCycle_encodeFail o wfuel id hcr hsv]
      rw [h1]
      apply pollChk_of_no_enqueue
      by_cases hh : o.hookPresent <;> simp [hh]
    · obtain ⟨hrz, hen⟩ := ssdvifyModel_some _ _ _ _ hsv
      cases hw : (waitDrain o.polls o.runningInWait wfuel 0).2 with
      | drained =>
        have h1 : (runCycle o wfuel id).1 =
            ([OEvent.cycleSleep, OEvent.captureCall] ++
              (if o.hookPresent then [OEvent.postProc] else []) ++
              [OEvent.encodeCall (ssdvUsedId id)] ++
              (waitDrain o.polls o.runningInWait wfuel 0).1) ++
            [OEvent.enqueue] := by
          rw [runCycle_drained o wfuel id hcr hrz hen hw]
        rw [h1]
        apply pollChk_block
        · by_cases hh : o.hookPresent <;> simp [hh]
        · exact hw
      | stopped =>
        have h1 : (runCycle o wfuel id).1 =
            [OEvent.cycleSleep, OEvent.captureCall] ++
            (if o.hookPresent then [OEvent.postProc] else []) ++
            [OEvent.encodeCall (ssdvUsedId id)] ++
            (waitDrain o.polls o.runningInWait wfuel 0).1 := by
          rw [runCycle_stopped o wfuel id hcr hrz hen hw]
        rw [h1]
        apply pollChk_of_no_enqueue
        intro hm
        rcases List.mem_append.mp hm with hm | hm
        · revert hm
          by_cases hh : o.hookPresent <;> simp [hh]
        · exact waitDrain_no_enqueue _ _ _ _ hm
      | fuelOut =>
        have h1 : (runCycle o wfuel id).1 =
            [OEvent.cycleSleep, OEvent.captureCall] ++
            (if o.hookPresent then [OEvent.postProc] else []) ++
            [OEvent.encodeCall (ssdvUsedId id)] ++
            (waitDrain o.polls o.runningInWait wfuel 0).1 := by
          rw [runCycle_fuelOut o wfuel id hcr hrz hen hw]
        rw [h1]
        apply pollChk_of_no_enqueue
        intro hm
        rcases List.mem_append.mp hm with hm | hm
        · revert hm
          by_cases hh : o.hookPresent <;> simp [hh]
        · exact waitDrain_no_enqueue _ _ _ _ hm
  · have h1 : (runCycle o wfuel id).1 =
        [OEvent.cycleSleep, OEvent.captureCall, OEvent.recSleep,
          OEvent.camStopAtt, OEvent.camCloseAtt, OEvent.initAtt] := by
      rw [runCycle_recovery o wfuel id hcr]
    rw [h1]
    apply pollChk_of_no_enqueue
    simp

/-- The all-success cycle: one empty poll, one enqueue, id advanced by one
modulo 256. -/
theorem runCycle_allGood (wfuel id : Nat) :
    runCycle allGood wfuel id =
      ([OEvent.cycleSleep, OEvent.captureCall,
        OEvent.encodeCall (ssdvUsedId id), OEvent.poll true, OEvent.enqueue],
        CycleRes.contin ((id + 1) % 256)) := by
  have hw : waitDrain (fun _ => true) (fun _ => true) wfuel 0 =
      ([OEvent.poll true], WaitRes.drained) := by
    cases wfuel <;> simp [waitDrain]
  simp [runCycle, allGood, ssdvifyModel, hw]

/-- Any encode-call event the loop ever emits carries an id below 256. -/
theorem runLoop_encode_lt (os : Nat → CycleOracle) (wfuel : Nat) :
    ∀ (n c id u : Nat),
      OEvent.encodeCall u ∈ (runLoop os wfuel n c id).1 → u < 256
  | 0, c, id, u, h => by simp [runLoop] at h
  | n + 1, c, id, u, h => by
    by_cases hr : (os c).runningAtTop = true
    · rcases hcy : runCycle (os c) wfuel id with ⟨evs, cr⟩
      have hmem : OEvent.encodeCall u ∈ evs → u < 256 := by
        intro hm
        have hu : u = ssdvUsedId id :=
          runCycle_encode_mem (os c) wfuel id u (by rw [hcy]; exact hm)
        rw [hu]
        show id % 256 < 256
        omega
      cases cr with
      | contin id2 =>
        simp only [runLoop, hr, if_true, hcy] at h
        rcases List.mem_append.mp h with h | h
        · exact hmem h
        · exact runLoop_encode_lt os wfuel n (c + 1) id2 u h
      | ret =>
        simp only [runLoop, hr, if_true, hcy] at h
        exact hmem h
      | fuelOut =>
        simp only [runLoop, hr, if_true, hcy] at h
        exact hmem h
    · simp [runLoop, hr] at h

/-- The whole loop's event list passes the poll check from any state. -/
theorem runLoop_pollChk (os : Nat → CycleOracle) (wfuel : Nat) :
    ∀ (n c id : Nat) (s : Option Bool),
      pollChk s (runLoop os wfuel n c id).1 = true
  | 0, c, id, s => by simp [runLoop, pollChk]
  | n + 1, c, id, s => by
    by_cases hr : (os c).runningAtTop = true
    · rcases hcy : runCycle (os c) wfuel id with ⟨evs, cr⟩
      have hevs : pollChk s evs = true := by
        have := runCycle_pollChk (os c) wfuel id s
        rw [hcy] at this
        exact this
      cases cr with
      | contin id2 =>
        simp only [runLoop, hr, if_true, hcy]
        rw [pollChk_append, hevs,
          runLoop_pollChk os wfuel n (c + 1) id2 (lastPoll s evs)]
        rfl
      | ret =>
        simp only [runLoop, hr, if_true, hcy]
        exact hevs
      | fuelOut =>
        simp only [runLoop, hr, if_true, hcy]
        exact hevs
    · simp [runLoop, hr, pollChk]

/-- Iterating the all-success oracle advances the id by the number of
cycles, modulo 256. -/
theorem runLoop_allGood (wfuel : Nat) :
    ∀ (k c id : Nat), id < 256 →
      (runLoop (fun _ => allGood) wfuel k c id).2 =
        LoopRes.outOfCycles ((id + k) % 256)
  | 0, c, id, h => by simp [runLoop, Nat.mod_eq_of_lt h]
  | k + 1, c, id, h => by
    have h2 : (id + 1) % 256 < 256 := Nat.mod_lt _ (by omega)
    have hr : allGood.runningAtTop = true := rfl
    simp only [runLoop, hr, if_true, runCycle_allGood wfuel id]
    rw [runLoop_allGood wfuel k (c + 1) ((id + 1) % 256) h2]
    show LoopRes.outOfCycles (((id + 1) % 256 + k) % 256) =
      LoopRes.outOfCycles ((id + (k + 1)) % 256)
    congr 1
    omega

/-- C3: image-id invariants of the orchestration loop.
(1) Every id the loop hands to the encoder is reduced modulo 256 before
use (`ssdvify` line 292), so every encode-call event of every run carries
an id in [0,255].  (2) A cycle that loops advances the id to
`(id + 1) % 256` exactly when it enqueued; a cycle whose capture failed or
whose encode returned FAIL does not consume an id.  (3) Starting from any
`id < 256`, after 256 consecutive fully successful cycles the id has
wrapped back to exactly `id`. -/
theorem c3_image_id_invariants :
    (∀ (os : Nat → CycleOracle) (wfuel n c id u : Nat),
      OEvent.encodeCall u ∈ (runLoop os wfuel n c id).1 → u < 256) ∧
    (∀ (o : CycleOracle) (wfuel id id2 : Nat),
      (runCycle o wfuel id).2 = CycleRes.contin id2 →
        (OEvent.enqueue ∈ (runCycle o wfuel id).1 ∧ id2 = (id + 1) % 256) ∨
        (OEvent.enqueue ∉ (runCycle o wfuel id).1 ∧ id2 = id)) ∧
    (∀ (wfuel c id : Nat), id < 256 →
      (runLoop (fun _ => allGood) wfuel 256 c id).2 =
        LoopRes.outOfCycles id) := by
  refine ⟨fun os wfuel n c id u h => runLoop_encode_lt os wfuel n c id u h,
    fun o wfuel id id2 h => runCycle_contin_advance o wfuel id id2 h,
    fun wfuel c id h => ?_⟩
  rw [runLoop_allGood wfuel 256 c id h]
  congr 1
  omega

/-- C3 (witness): the wrap-around part applied at a concrete start id. -/
theorem c3_witness :
    (7 < 256) ∧
    (runLoop (fun _ => allGood) 1 256 0 7).2 = LoopRes.outOfCycles 7 :=
  ⟨by decide, c3_image_id_invariants.2.2 1 0 7 (by decide)⟩

/-- C5: in every run of the orchestration loop, scanning the events left
to right, every enqueue happens while the most recently seen queue poll
returned true (queue empty) — the loop never enqueues while the most
recent poll before the enqueue reported a non-empty queue. -/
theorem c5_enqueue_after_empty_poll (os : Nat → CycleOracle)
    (wfuel n c id : Nat) :
    pollChk none (runLoop os wfuel n c id).1 = true :=
  runLoop_pollChk os wfuel n c id none

/-- C6: if during the backpressure wait of a cycle the running flag is
observed cleared (the wait result is `stopped`), the cycle's events
contain no enqueue, and the whole loop returns immediately with the
image id unchanged from the cycle's entry. -/
theorem c6_stop_during_wait (os : Nat → CycleOracle) (wfuel n c id : Nat)
    (hrun : (os c).runningAtTop = true)
    (hcr : (os c).captureRes = CapRes.ok)
    (hrz : (os c).resizeOk = true)
    (hen : (os c).encodeOk = true)
    (hw : (waitDrain (os c).polls (os c).runningInWait wfuel 0).2 =
      WaitRes.stopped) :
    OEvent.enqueue ∉ (runCycle (os c) wfuel id).1 ∧
    runLoop os wfuel (n + 1) c id =
      ((runCycle (os c) wfuel id).1, LoopRes.stoppedInWait id) := by
  have h1 : (runCycle (os c) wfuel id).1 =
      [OEvent.cycleSleep, OEvent.captureCall] ++
      (if (os c).hookPresent then [OEvent.postProc] else []) ++
      [OEvent.encodeCall (ssdvUsedId id)] ++
      (waitDrain (os c).polls (os c).runningInWait wfuel 0).1 := by
    rw [runCycle_stopped (os c) wfuel id hcr hrz hen hw]
  have h2 : (runCycle (os c) wfuel id).2 = CycleRes.ret := by
    rw [runCycle_stopped (os c) wfuel id hcr hrz hen hw]
  constructor
  · rw [h1]
    intro hm
    rcases List.mem_append.mp hm with hm | hm
    · revert hm
      by_cases hh : (os c).hookPresent <;> simp [hh]
    · exact waitDrain_no_enqueue _ _ _ _ hm
  · rcases hcy : runCycle (os c) wfuel id with ⟨evs, cr⟩
    have hc2 : cr = CycleRes.ret := by
      have h3 := h2
      rw [hcy] at h3
      exact h3
    subst hc2
    simp [runLoop, hrun, hcy]

/-- C6 (witness): a concrete cycle whose queue never drains and whose
running flag reads false at the first in-wait check: the loop exits at
once, nothing is enqueued, the id stays 7. -/
theorem c6_witness :
    ((waitDrain oStop.polls oStop.runningInWait 3 0).2 = WaitRes.stopped) ∧
    (OEvent.enqueue ∉ (runCycle oStop 3 7).1 ∧
      runLoop (fun _ => oStop) 3 5 0 7 =
        ((runCycle oStop 3 7).1, LoopRes.stoppedInWait 7)) :=
  ⟨by decide,
    c6_stop_during_wait (fun _ => oStop) 3 4 0 7 (by decide) (by decide)
      (by decide) (by decide) (by decide)⟩

/-- C7: a cycle whose capture fails — returns False or raises — runs
exactly `captureCall` then the recovery attempts (`cam.stop`, `cam.close`,
`init_camera`), whatever the outcomes of those recovery steps, keeps the
image id unchanged, and the loop continues with the next cycle instead of
terminating. -/
theorem c7_capture_failure_recovery (os : Nat → CycleOracle)
    (wfuel n c id : Nat)
    (hrun : (os c).runningAtTop = true)
    (hfail : (os c).captureRes ≠ CapRes.ok) :
    runCycle (os c) wfuel id =
      ([OEvent.cycleSleep, OEvent.captureCall, OEvent.recSleep,
        OEvent.camStopAtt, OEvent.camCloseAtt, OEvent.initAtt],
        CycleRes.contin id) ∧
    runLoop os wfuel (n + 1) c id =
      ([OEvent.cycleSleep, OEvent.captureCall, OEvent.recSleep,
        OEvent.camStopAtt, OEvent.camCloseAtt, OEvent.initAtt] ++
        (runLoop os wfuel n (c + 1) id).1,
        (runLoop os wfuel n (c + 1) id).2) := by
  have h1 := runCycle_recovery (os c) wfuel id hfail
  refine ⟨h1, ?_⟩
  simp [runLoop, hrun, h1]

/-- C7 (witness): a concrete cycle whose capture raises and whose recovery
steps all fail too: the stop, close and init attempts still happen and the
loop proceeds to the next cycle with the same id. -/
theorem c7_witness :
    (oCapFail.captureRes ≠ CapRes.ok) ∧
    (runCycle oCapFail 2 9 =
      ([OEvent.cycleSleep, OEvent.captureCall, OEvent.recSleep,
        OEvent.camStopAtt, OEvent.camCloseAtt, OEvent.initAtt],
        CycleRes.contin 9) ∧
      runLoop (fun _ => oCapFail) 2 1 0 9 =
        ([OEvent.cycleSleep, OEvent.captureCall, OEvent.recSleep,
          OEvent.camStopAtt, OEvent.camCloseAtt, OEvent.initAtt] ++
          (runLoop (fun _ => oCapFail) 2 0 1 9).1,
          (runLoop (fun _ => oCapFail) 2 0 1 9).2)) :=
  ⟨by decide,
    c7_capture_failure_recovery (fun _ => oCapFail) 2 0 0 9 (by decide)
      (by decide)⟩

/-- The retry loop makes at most as many attempts as it has retries. -/
theorem countInitAttempts_le (ok : Nat → Bool) :
    ∀ (r a : Nat), countInitAttempts (initRetryLoop ok r a).1 ≤ r
  | 0, a => by simp [initRetryLoop, countInitAttempts]
  | r + 1, a => by
    by_cases h : ok a = true
    · simp [initRetryLoop, h, countInitAttempts]
    · simp only [initRetryLoop, h, Bool.false_eq_true, if_false]
      have hrec := countInitAttempts_le ok r (a + 1)
      simp only [countInitAttempts]
      omega

/-- When every attempt fails, the retry loop runs its full trace — one
attempt then one 10-second sleep, `r` times — and reports no success. -/
theorem initRetryLoop_allFail (ok : Nat → Bool) :
    ∀ (r a : Nat), (∀ b, a ≤ b → b < a + r → ok b = false) →
      initRetryLoop ok r a = (failTrace r a, false)
  | 0, _, _ => rfl
  | r + 1, a, h => by
    have ha : ok a = false := h a (Nat.le_refl a) (by omega)
    simp only [initRetryLoop, ha, Bool.false_eq_true, if_false]
    rw [initRetryLoop_allFail ok r (a + 1)
      (fun b h1 h2 => h b (by omega) (by omega))]
    simp [failTrace]

/-- C10: the constructor attempts camera initialisation at most
`init_retries` times; and when every attempt fails, the loop makes exactly
`init_retries` attempts, each followed by the 10-second pause (`failTrace`
interleaves them), after which the constructor still returns an object
normally — merely one without a usable camera handle — instead of raising
an error to the caller. -/
theorem c10_init_retries (ok : Nat → Bool) (r : Nat) :
    countInitAttempts (mkWenetPiCamera2 ok r).1 ≤ r ∧
    ((∀ a, a < r → ok a = false) →
      mkWenetPiCamera2 ok r = (failTrace r 0, { camUsable := false })) := by
  constructor
  · exact countInitAttempts_le ok r 0
  · intro h
    unfold mkWenetPiCamera2
    rw [initRetryLoop_allFail ok r 0 (fun b _ h2 => h b (by omega))]

/-- C10 (witness): with three retries and a camera that never answers, the
constructor makes exactly three attempts with sleeps in between and
returns an object with no usable handle. -/
theorem c10_witness :
    (∀ a, a < 3 → (fun _ => false : Nat → Bool) a = false) ∧
    mkWenetPiCamera2 (fun _ => false) 3 =
      (failTrace 3 0, { camUsable := false }) :=
  ⟨by decide, (c10_init_retries (fun _ => false) 3).2 (by decide)⟩
